import Mathlib

/-!
Shallow embedding of the gcurl library (`parse.go`): a parser that turns a
curl command line into a structured request descriptor.  Strings are modelled
as Lean `String` (sequences of Unicode scalar values); Go operates on UTF-8
bytes, and every place where the byte/rune distinction could matter is noted
at the definition it concerns.
-/

namespace GCurl

/-- Go `unicode.IsSpace`: the Unicode White_Space property. -/
def isSpaceChar (c : Char) : Bool :=
  let n := c.toNat
  (9 ≤ n && n ≤ 13) || n = 32 || n = 0x85 || n = 0xA0 ||
  n = 0x1680 || (0x2000 ≤ n && n ≤ 0x200A) ||
  n = 0x2028 || n = 0x2029 || n = 0x202F || n = 0x205F || n = 0x3000

/-- Leading-whitespace removal on a character list. -/
def trimLeftList (l : List Char) : List Char := l.dropWhile isSpaceChar

/-- Go `strings.TrimSpace`: remove leading and trailing whitespace. -/
def goTrimSpace (s : String) : String :=
  ⟨((s.data.dropWhile isSpaceChar).reverse.dropWhile isSpaceChar).reverse⟩

/-- Membership of a character in a string (Go `strings.Contains` with a
one-character needle). -/
def strContains (s : String) (c : Char) : Bool := s.data.contains c

/-- Go `strings.ReplaceAll(s, "\n", "")`: delete every newline character. -/
def stripNL (s : String) : String := ⟨s.data.filter (fun c => c ≠ '\n')⟩

/-- Go `strings.HasPrefix`.  Byte prefixes and character prefixes agree
because UTF-8 encoding is injective and prefix-monotone. -/
def strStartsWith (s p : String) : Bool := p.data.isPrefixOf s.data

/-- First `n` characters (Go slice `s[0:n]`; used only after an ASCII prefix
check, where byte indices and character indices coincide). -/
def strTake (s : String) (n : Nat) : String := ⟨s.data.take n⟩

/-- All but the first `n` characters (Go slice `s[n:]`, same proviso). -/
def strDrop (s : String) (n : Nat) : String := ⟨s.data.drop n⟩

/-- Go `len` on a string that is ASCII at every position the code inspects. -/
def strLen (s : String) : Nat := s.data.length

/-- ASCII fragment of Go `strings.ToLower` on one character.  The repository
only ever lowercases header names, and the uppercase letters the claims are
about are the ASCII ones. -/
def toLowerChar (c : Char) : Char :=
  if 65 ≤ c.toNat && c.toNat ≤ 90 then Char.ofNat (c.toNat + 32) else c

/-- Go `strings.ToLower` (ASCII fragment, see `toLowerChar`). -/
def goToLower (s : String) : String := ⟨s.data.map toLowerChar⟩

/-- Go `strings.Cut(arg, ":")` specialised to the one-character separator the
source uses: text before the first colon, text after it, and whether a colon
was found. -/
def goCutColon : List Char → List Char × List Char × Bool
  | [] => ([], [], false)
  | c :: cs =>
    if c = ':' then ([], cs, true)
    else
      let r := goCutColon cs
      (c :: r.1, r.2.1, r.2.2)

/-- String-level wrapper for `goCutColon`. -/
def cutColon (s : String) : String × String × Bool :=
  let r := goCutColon s.data
  (⟨r.1⟩, ⟨r.2.1⟩, r.2.2)

/-- UTF-8 encoding of one scalar value, as byte values. -/
def utf8EncodeChar (c : Char) : List Nat :=
  let n := c.toNat
  if n < 0x80 then [n]
  else if n < 0x800 then [0xC0 + n / 64, 0x80 + n % 64]
  else if n < 0x10000 then
    [0xE0 + n / 4096, 0x80 + (n / 64) % 64, 0x80 + n % 64]
  else
    [0xF0 + n / 262144, 0x80 + (n / 4096) % 64, 0x80 + (n / 64) % 64, 0x80 + n % 64]

/-- The UTF-8 bytes of a string (`[]byte(s)` in Go). -/
def utf8Bytes (s : String) : List Nat := s.data.flatMap utf8EncodeChar

/-- The base64 standard alphabet. -/
def base64Alphabet : List Char :=
  "ABCDEFGHIJKLMNOPQRSTUVWXYZabcdefghijklmnopqrstuvwxyz0123456789+/".data

/-- Index into the base64 alphabet. -/
def b64Char (n : Nat) : Char := (base64Alphabet.drop n).headD 'A'

/-- Go `base64.StdEncoding.EncodeToString` on a byte list. -/
def base64Bytes : List Nat → List Char
  | [] => []
  | [a] => [b64Char (a / 4), b64Char (a % 4 * 16), '=', '=']
  | [a, b] => [b64Char (a / 4), b64Char (a % 4 * 16 + b / 16), b64Char (b % 16 * 4), '=']
  | a :: b :: c :: rest =>
    b64Char (a / 4) :: b64Char (a % 4 * 16 + b / 16) ::
    b64Char (b % 16 * 4 + c / 64) :: b64Char (c % 64) :: base64Bytes rest

/-- Go `base64.StdEncoding.EncodeToString([]byte(s))`. -/
def base64Std (s : String) : String := ⟨base64Bytes (utf8Bytes s)⟩

/-- A Go `map[string]string` modelled as an association list: assignment
replaces the binding of an existing key in place and appends a new key. -/
def assocSet {α : Type} : List (String × α) → String → α → List (String × α)
  | [], k, v => [(k, v)]
  | (k', v') :: rest, k, v =>
    if k' = k then (k, v) :: rest else (k', v') :: assocSet rest k v

/-- Map lookup (`m[k]` together with the `ok` flag). -/
def assocGet? {α : Type} : List (String × α) → String → Option α
  | [], _ => none
  | (k', v') :: rest, k => if k' = k then some v' else assocGet? rest k

/-- The `Header` type of the source: `map[string]string`. -/
abbrev Header : Type := List (String × String)

/-- Header assignment `req.Header[k] = v`. -/
def headerSet (h : Header) (k v : String) : Header := assocSet h k v

/-- Header lookup with the `ok` flag. -/
def headerGet? (h : Header) (k : String) : Option String := assocGet? h k

/-- Go map read `m[k]`, which yields the zero value `""` for a missing key. -/
def headerGetD (h : Header) (k : String) : String := (headerGet? h k).getD ""

/-- Key-existence test `_, ok := m[k]`. -/
def headerMem (h : Header) (k : String) : Bool := (headerGet? h k).isSome

/-- Header map keys (constants of the source). -/
def KeyContentType : String := "content-type"

/-- Header map key for the user agent. -/
def KeyUserAgent : String := "user-agent"

/-- Header map key for cookies. -/
def KeyCookie : String := "cookie"

/-- Header map key for authorization. -/
def KeyAuthorization : String := "authorization"

/-- The JSON media type constant of the source. -/
def ContentTypeJSON : String := "application/json"

/-- The request descriptor built by `Parse` (struct `Request`). -/
structure Request where
  method : String
  url : String
  header : Header
  body : String
  skipTLS : Bool
  timeout : String
deriving Repr, DecidableEq

/-- The descriptor `Parse` starts from: method `GET`, empty header map, and
zero values everywhere else. -/
def initReq : Request :=
  { method := "GET", url := "", header := [], body := "", skipTLS := false, timeout := "" }

/-- `isURL`: Go `regexp.MatchString("^https?://.*$", u)`.  In that pattern
`.` does not match a newline and `$` anchors at the end of the text, so the
regex matches exactly the strings that begin with a scheme prefix and contain
no newline character. -/
def isURL (u : String) : Bool :=
  (strStartsWith u "http://" || strStartsWith u "https://") && !(strContains u '\n')

/-- `sanitize`, one word: trim, drop if the result is exactly a newline
(unreachable after trimming, kept from the source), strip embedded newlines,
and split a glued `-X`‑plus‑method token in two. -/
def sanitizeWord (w : String) : List String :=
  let arg := goTrimSpace w
  if arg = "\n" then []
  else
    let arg := if strContains arg '\n' then stripNL arg else arg
    if strStartsWith arg "-X" && strLen arg > 2 then [strTake arg 2, strDrop arg 2]
    else [arg]

/-- `sanitize`: per-word normalization, preserving order. -/
def sanitize (args : List String) : List String := args.flatMap sanitizeWord

/-- The `default:` branch of the argument loop: consume `arg` as the payload
of the pending flag kind `argType` (the Go `switch argType` with no default
case leaves everything unchanged for an unrecognized pending kind). -/
def consume (argType : String) (req : Request) (arg : String) : String × Request :=
  match argType with
  | "header" =>
    let r := cutColon arg
    ("", { req with header := headerSet req.header (goToLower r.1) (goTrimSpace r.2.1) })
  | "user-agent" =>
    ("", { req with header := headerSet req.header KeyUserAgent arg })
  | "data" =>
    let req := if req.method = "GET" || req.method = "HEAD" then { req with method := "POST" } else req
    let req :=
      if headerMem req.header KeyContentType then req
      else { req with header := headerSet req.header KeyContentType "application/x-www-form-urlencoded" }
    let req :=
      if strLen req.body = 0 then { req with body := arg }
      else { req with body := req.body ++ "&" ++ arg }
    ("", req)
  | "user" =>
    ("", { req with header := headerSet req.header KeyAuthorization ("Basic " ++ base64Std arg) })
  | "method" =>
    ("", { req with method := arg })
  | "cookie" =>
    ("", { req with header := headerSet req.header KeyCookie arg })
  | "timeout" =>
    ("", { req with timeout := arg })
  | _ => (argType, req)

/-- One iteration of the argument loop of `Parse`: the `switch` over the
current token, threading the pending flag kind (`argType`) and the
descriptor. -/
def step (p : String × Request) (arg : String) : String × Request :=
  let argType := p.1
  let req := p.2
  if isURL arg then (argType, { req with url := arg })
  else if arg = "-A" || arg = "--user-agent" then ("user-agent", req)
  else if arg = "-H" || arg = "--header" then ("header", req)
  else if arg = "-d" || arg = "--data" || arg = "--data-ascii" || arg = "--data-raw" then ("data", req)
  else if arg = "-u" || arg = "--user" then ("user", req)
  else if arg = "-I" || arg = "--head" then (argType, { req with method := "HEAD" })
  else if arg = "-X" || arg = "--request" then ("method", req)
  else if arg = "-b" || arg = "--cookie" then ("cookie", req)
  else if arg = "-k" || arg = "--insecure" then (argType, { req with skipTLS := true })
  else if arg = "-m" || arg = "--max-time" then ("timeout", req)
  else consume argType req arg

/-- The argument loop run from an arbitrary pending kind and descriptor. -/
def runFrom (s : String) (r : Request) (args : List String) : String × Request :=
  args.foldl step (s, r)

/-- The argument loop of `Parse`: fold `step` over the tokens, starting from
no pending flag and the initial descriptor. -/
def runMachine (args : List String) : Request := (runFrom "" initReq args).2

/-- The flag spellings recognized by the `switch` before its `default:`
branch (the immediate-effect flags included). -/
def isFlagToken (t : String) : Bool :=
  t = "-A" || t = "--user-agent" || t = "-H" || t = "--header" ||
  t = "-d" || t = "--data" || t = "--data-ascii" || t = "--data-raw" ||
  t = "-u" || t = "--user" || t = "-I" || t = "--head" ||
  t = "-X" || t = "--request" || t = "-b" || t = "--cookie" ||
  t = "-k" || t = "--insecure" || t = "-m" || t = "--max-time"

/-- Auxiliary search for `goIndex`: the first position at or after `i` where
`sub` is a prefix of the remaining text. -/
def goIndexAux (sub : List Char) : List Char → Nat → Option Nat
  | [], i => if sub.isPrefixOf ([] : List Char) then some i else none
  | c :: rest, i =>
    if sub.isPrefixOf (c :: rest) then some i else goIndexAux sub rest (i + 1)

/-- Go `strings.Index`: index of the first occurrence of `sub` in `s`, or
`-1`.  (Go reports a byte index; the source only compares the result with
`0`, where byte and character indices agree.) -/
def goIndex (s sub : String) : Int :=
  match goIndexAux sub.data s.data 0 with
  | some i => (i : Int)
  | none => -1

/-!
Model of the external JSON collaborator, `encoding/json`, in the fragment the
body normalizer of `Parse` uses: `json.Unmarshal` into a
`map[string]interface{}` and `json.Encoder` with `SetEscapeHTML(false)`.
JSON numbers are kept as their source text; Go decodes them to `float64` and
re-formats them, a floating-point step not modelled here, and no claim
depends on number formatting.
-/

/-- A decoded JSON document (the shape of a Go `interface{}` holding JSON). -/
inductive JVal where
  | null : JVal
  | bool (b : Bool) : JVal
  | num (raw : String) : JVal
  | str (s : String) : JVal
  | arr (elems : List JVal) : JVal
  | obj (fields : List (String × JVal)) : JVal
deriving Inhabited

/-- Whether a decoded value is an object. -/
def isObjJ : JVal → Bool
  | .obj _ => true
  | _ => false

/-- Whether a decoded value is the JSON literal null. -/
def isNullJ : JVal → Bool
  | .null => true
  | _ => false

/-- The whitespace the JSON scanner skips: space, tab, CR, LF. -/
def jsonWS (c : Char) : Bool := c = ' ' || c = '\t' || c = '\r' || c = '\n'

/-- Skip JSON whitespace. -/
def skipWS (l : List Char) : List Char := l.dropWhile jsonWS

/-- ASCII decimal digit test. -/
def isDigitChar (c : Char) : Bool := 48 ≤ c.toNat && c.toNat ≤ 57

/-- Value of one hexadecimal digit. -/
def hexDigitVal? (c : Char) : Option Nat :=
  if 48 ≤ c.toNat && c.toNat ≤ 57 then some (c.toNat - 48)
  else if 97 ≤ c.toNat && c.toNat ≤ 102 then some (c.toNat - 87)
  else if 65 ≤ c.toNat && c.toNat ≤ 70 then some (c.toNat - 55)
  else none

/-- Four hexadecimal digits of a `\uXXXX` escape. -/
def parseHex4 : List Char → Option (Nat × List Char)
  | a :: b :: c :: d :: rest =>
    match hexDigitVal? a, hexDigitVal? b, hexDigitVal? c, hexDigitVal? d with
    | some x, some y, some z, some w => some (x * 4096 + y * 256 + z * 16 + w, rest)
    | _, _, _, _ => none
  | _ => none

/-- Decode a JSON string body (the part after the opening quote) into its
character content.  Escapes follow Go: the eight simple escapes, and
`\uXXXX` with UTF-16 surrogate pairs combined and lone surrogates replaced
by U+FFFD (`unicode.ReplacementChar`); unescaped control characters are
invalid. -/
def parseJString : Nat → List Char → Option (List Char × List Char)
  | 0, _ => none
  | _ + 1, [] => none
  | fuel + 1, c :: rest =>
    if c = '"' then some ([], rest)
    else if c = '\\' then
      match rest with
      | [] => none
      | e :: rest2 =>
        if e = 'u' then
          match parseHex4 rest2 with
          | none => none
          | some (n, rest3) =>
            if 0xD800 ≤ n && n ≤ 0xDBFF then
              match rest3 with
              | '\\' :: 'u' :: rest4 =>
                match parseHex4 rest4 with
                | some (m, rest5) =>
                  if 0xDC00 ≤ m && m ≤ 0xDFFF then
                    let code := 0x10000 + (n - 0xD800) * 0x400 + (m - 0xDC00)
                    match parseJString fuel rest5 with
                    | some (cs, rem) => some (Char.ofNat code :: cs, rem)
                    | none => none
                  else
                    match parseJString fuel rest3 with
                    | some (cs, rem) => some ('�' :: cs, rem)
                    | none => none
                | none =>
                  match parseJString fuel rest3 with
                  | some (cs, rem) => some ('�' :: cs, rem)
                  | none => none
              | _ =>
                match parseJString fuel rest3 with
                | some (cs, rem) => some ('�' :: cs, rem)
                | none => none
            else if 0xDC00 ≤ n && n ≤ 0xDFFF then
              match parseJString fuel rest3 with
              | some (cs, rem) => some ('�' :: cs, rem)
              | none => none
            else
              match parseJString fuel rest3 with
              | some (cs, rem) => some (Char.ofNat n :: cs, rem)
              | none => none
        else
          let simple : Option Char :=
            if e = '"' then some '"'
            else if e = '\\' then some '\\'
            else if e = '/' then some '/'
            else if e = 'b' then some '\x08'
            else if e = 'f' then some '\x0c'
            else if e = 'n' then some '\n'
            else if e = 'r' then some '\r'
            else if e = 't' then some '\t'
            else none
          match simple with
          | none => none
          | some ch =>
            match parseJString fuel rest2 with
            | some (cs, rem) => some (ch :: cs, rem)
            | none => none
    else if c.toNat < 0x20 then none
    else
      match parseJString fuel rest with
      | some (cs, rem) => some (c :: cs, rem)
      | none => none

/-- The optional fraction part of a JSON number. -/
def parseFracPart : List Char → Option (List Char × List Char)
  | '.' :: r =>
    let ds := r.takeWhile isDigitChar
    if ds.isEmpty then none else some ('.' :: ds, r.dropWhile isDigitChar)
  | l => some ([], l)

/-- The optional exponent part of a JSON number. -/
def parseExpPart : List Char → Option (List Char × List Char)
  | [] => some ([], [])
  | c :: r =>
    if c = 'e' || c = 'E' then
      let sr : List Char × List Char :=
        match r with
        | s :: r1 => if s = '+' || s = '-' then ([s], r1) else ([], s :: r1)
        | [] => ([], [])
      let ds := sr.2.takeWhile isDigitChar
      if ds.isEmpty then none
      else some (c :: (sr.1 ++ ds), sr.2.dropWhile isDigitChar)
    else some ([], c :: r)

/-- A JSON number: optional minus, an integer part with no leading zero,
optional fraction and exponent; the source text is kept. -/
def parseNumber (l : List Char) : Option (JVal × List Char) :=
  let nr : List Char × List Char :=
    match l with
    | '-' :: r => (['-'], r)
    | _ => ([], l)
  match nr.2 with
  | [] => none
  | c :: r =>
    let ir : Option (List Char × List Char) :=
      if c = '0' then some (['0'], r)
      else if isDigitChar c then some (c :: r.takeWhile isDigitChar, r.dropWhile isDigitChar)
      else none
    match ir with
    | none => none
    | some (ints, r2) =>
      match parseFracPart r2 with
      | none => none
      | some (fracs, r3) =>
        match parseExpPart r3 with
        | none => none
        | some (exps, r4) => some (.num ⟨nr.1 ++ ints ++ fracs ++ exps⟩, r4)

mutual

/-- Parse one JSON value, skipping leading whitespace. -/
def parseValue : Nat → List Char → Option (JVal × List Char)
  | 0, _ => none
  | fuel + 1, l =>
    match skipWS l with
    | [] => none
    | c :: rest =>
      if c = '\x7b' then
        match skipWS rest with
        | '\x7d' :: rest2 => some (.obj [], rest2)
        | _ =>
          match parseMembers fuel [] rest with
          | some (fs, rest2) => some (.obj fs, rest2)
          | none => none
      else if c = '[' then
        match skipWS rest with
        | ']' :: rest2 => some (.arr [], rest2)
        | _ =>
          match parseElems fuel [] rest with
          | some (es, rest2) => some (.arr es, rest2)
          | none => none
      else if c = '"' then
        match parseJString (fuel + 1) rest with
        | some (cs, rest2) => some (.str ⟨cs⟩, rest2)
        | none => none
      else if c = 't' then
        match rest with
        | 'r' :: 'u' :: 'e' :: rest2 => some (.bool true, rest2)
        | _ => none
      else if c = 'f' then
        match rest with
        | 'a' :: 'l' :: 's' :: 'e' :: rest2 => some (.bool false, rest2)
        | _ => none
      else if c = 'n' then
        match rest with
        | 'u' :: 'l' :: 'l' :: rest2 => some (.null, rest2)
        | _ => none
      else if c = '-' || isDigitChar c then parseNumber (c :: rest)
      else none

/-- Parse the members of an object after its `\x7b` (or after a comma); the
accumulator applies Go's `m[key] = value`, so a duplicate key overwrites. -/
def parseMembers : Nat → List (String × JVal) → List Char → Option (List (String × JVal) × List Char)
  | 0, _, _ => none
  | fuel + 1, acc, l =>
    match skipWS l with
    | '"' :: rest =>
      match parseJString (fuel + 1) rest with
      | some (key, rest2) =>
        match skipWS rest2 with
        | ':' :: rest3 =>
          match parseValue fuel rest3 with
          | some (v, rest4) =>
            let acc2 := assocSet acc ⟨key⟩ v
            match skipWS rest4 with
            | ',' :: rest5 => parseMembers fuel acc2 rest5
            | '\x7d' :: rest5 => some (acc2, rest5)
            | _ => none
          | none => none
        | _ => none
      | none => none
    | _ => none

/-- Parse the elements of an array after its `[` (or after a comma). -/
def parseElems : Nat → List JVal → List Char → Option (List JVal × List Char)
  | 0, _, _ => none
  | fuel + 1, acc, l =>
    match parseValue fuel l with
    | some (v, rest) =>
      match skipWS rest with
      | ',' :: rest2 => parseElems fuel (acc ++ [v]) rest2
      | ']' :: rest2 => some (acc ++ [v], rest2)
      | _ => none
    | none => none

end

/-- Parse a complete JSON text: one value with only whitespace around it.
The fuel is an upper bound on the nesting the parser can follow; every
recursive descent first consumes at least one character, so twice the length
plus a constant suffices for any input. -/
def parseTop (s : String) : Option JVal :=
  match parseValue (2 * s.data.length + 8) s.data with
  | some (v, rest) => if skipWS rest = [] then some v else none
  | none => none

/-- Go `json.Unmarshal(body, &m)` for `m := make(map[string]interface{})`:
succeeds on a JSON object (fields, duplicates last-wins) and on the literal
`null` (which sets the map to `nil`, modelled as `none`); any other text,
valid JSON or not, is an error. -/
def goUnmarshalMap (s : String) : Except Unit (Option (List (String × JVal))) :=
  match parseTop s with
  | none => .error ()
  | some (.obj fs) => .ok (some fs)
  | some .null => .ok none
  | some _ => .error ()

/-- One lowercase hexadecimal digit. -/
def hexLower (n : Nat) : Char :=
  if n < 10 then Char.ofNat (48 + n) else Char.ofNat (87 + n)

/-- Escape one character the way Go's encoder does with `SetEscapeHTML(false)`:
quote, backslash and control characters are escaped, U+2028 and U+2029 are
escaped, everything else — `&`, `<` and `>` included — is emitted literally. -/
def encChar (c : Char) : List Char :=
  if c = '"' then ['\\', '"']
  else if c = '\\' then ['\\', '\\']
  else if c = '\n' then ['\\', 'n']
  else if c = '\r' then ['\\', 'r']
  else if c = '\t' then ['\\', 't']
  else if c.toNat < 0x20 then ['\\', 'u', '0', '0', hexLower (c.toNat / 16), hexLower (c.toNat % 16)]
  else if c.toNat = 0x2028 then ['\\', 'u', '2', '0', '2', '8']
  else if c.toNat = 0x2029 then ['\\', 'u', '2', '0', '2', '9']
  else [c]

/-- Encode a JSON string value. -/
def encString (s : String) : String := ⟨'"' :: (s.data.flatMap encChar ++ ['"'])⟩

/-- Code-point comparison of strings; Go sorts map keys by byte comparison of
their UTF-8 forms, which orders strings identically. -/
def charListLe : List Char → List Char → Bool
  | [], _ => true
  | _ :: _, [] => false
  | a :: as, b :: bs =>
    if a.toNat < b.toNat then true
    else if b.toNat < a.toNat then false
    else charListLe as bs

/-- Key order used by the Go encoder for maps. -/
def strLe (a b : String) : Bool := charListLe a.data b.data

/-- Insert a key-tagged item into a list sorted by `strLe`. -/
def insertSorted {α : Type} (p : String × α) : List (String × α) → List (String × α)
  | [] => [p]
  | q :: rest => if strLe p.1 q.1 then p :: q :: rest else q :: insertSorted p rest

/-- Sort key-tagged items by `strLe` (insertion sort). -/
def sortPairs {α : Type} (l : List (String × α)) : List (String × α) :=
  l.foldr insertSorted []

/-- Comma-separated concatenation. -/
def joinComma : List String → String
  | [] => ""
  | [x] => x
  | x :: xs => x ++ "," ++ joinComma xs

/-- Render one encoded object field. -/
def renderField (p : String × String) : String := encString p.1 ++ ":" ++ p.2

mutual

/-- Compact encoding of a decoded JSON value, as Go's encoder emits it with
HTML escaping disabled: no whitespace is inserted, object fields are sorted
by key. -/
def encodeVal : JVal → String
  | .null => "null"
  | .bool true => "true"
  | .bool false => "false"
  | .num raw => raw
  | .str s => encString s
  | .arr es => "[" ++ joinComma (encodeElems es) ++ "]"
  | .obj fs => "\x7b" ++ joinComma ((sortPairs (encodeFields fs)).map renderField) ++ "\x7d"

/-- Encode each field's value, keeping its key. -/
def encodeFields : List (String × JVal) → List (String × String)
  | [] => []
  | (k, v) :: rest => (k, encodeVal v) :: encodeFields rest

/-- Encode each element of an array. -/
def encodeElems : List JVal → List String
  | [] => []
  | v :: rest => encodeVal v :: encodeElems rest

end

/-- Encode the decoded `map[string]interface{}`: a `nil` map encodes as
`null`. -/
def topEncodeMap : Option (List (String × JVal)) → String
  | none => "null"
  | some fs => encodeVal (.obj fs)

/-- Errors `Parse` can return, by origin. -/
inductive ParseError where
  | invalidCommand : ParseError
  | tokenization : ParseError
  | json : ParseError
deriving Repr, DecidableEq

/-- The body-normalization epilogue of `Parse`: when the content-type header
is exactly the JSON media type, decode the body into a generic map and
replace it with the re-encoded text, Go's `Encode` trailing newline stripped
by `strings.ReplaceAll(…, "\n", "")`. -/
def finish (r : Request) : Except ParseError Request :=
  if headerGetD r.header KeyContentType = ContentTypeJSON then
    match goUnmarshalMap r.body with
    | .error _ => .error .json
    | .ok m => .ok { r with body := stripNL (topEncodeMap m ++ "\n") }
  else .ok r

/-- The full `Parse`, with the external word splitter (`shellwords.Parse`)
passed in as an oracle: reject inputs that do not start with `"curl "`,
split, sanitize, run the argument loop, normalize the body. -/
def ParseWith (split : String → Except Unit (List String)) (curl : String) :
    Except ParseError Request :=
  if goIndex curl "curl " ≠ 0 then .error .invalidCommand
  else
    match split curl with
    | .error _ => .error .tokenization
    | .ok args => finish (runMachine (sanitize args))

/-!
Spec-side vocabulary: predicates stated in the words of the specification,
used to compare the code's behavior with the claims.
-/

/-- A URL-shaped token in the words of the spec: it begins with `http://` or
`https://`. -/
def urlShaped (t : String) : Bool :=
  strStartsWith t "http://" || strStartsWith t "https://"

/-- Remember the most recent URL-shaped token. -/
def updUrl (acc : Option String) (t : String) : Option String :=
  if urlShaped t then some t else acc

/-- The last URL-shaped token of a token list, if any. -/
def lastUrl (args : List String) : Option String := args.foldl updUrl none

/-- A string with no uppercase ASCII letter. -/
def noUpper (s : String) : Bool :=
  s.data.all (fun c => !(65 ≤ c.toNat && c.toNat ≤ 90))

/-- A character the JSON encoder (HTML escaping disabled) emits literally
inside a string: not the quote, not the backslash, not a control character,
not U+2028 or U+2029. -/
def plainChar (c : Char) : Bool :=
  c ≠ '"' && c ≠ '\\' && 0x20 ≤ c.toNat && c.toNat ≠ 0x2028 && c.toNat ≠ 0x2029

/-- Whether a string contains any of the whitespace characters JSON
formatting could insert. -/
def hasWSStr (s : String) : Bool := s.data.any jsonWS

mutual

/-- Whether any string or number text inside a decoded JSON value contains
whitespace. -/
def jvalHasWS : JVal → Bool
  | .null => false
  | .bool _ => false
  | .num raw => hasWSStr raw
  | .str s => hasWSStr s
  | .arr es => jlistHasWS es
  | .obj fs => jfieldsHasWS fs

/-- `jvalHasWS` over array elements. -/
def jlistHasWS : List JVal → Bool
  | [] => false
  | v :: rest => jvalHasWS v || jlistHasWS rest

/-- `jvalHasWS` over object fields, keys included. -/
def jfieldsHasWS : List (String × JVal) → Bool
  | [] => false
  | (k, v) :: rest => hasWSStr k || jvalHasWS v || jfieldsHasWS rest

end

/-!
General lemmas about the string model and the header map.
-/

theorem string_eq_iff_data (s t : String) : s = t ↔ s.data = t.data := by
  constructor
  · intro h; rw [h]
  · intro h; cases s; cases t; simp_all

theorem strData_append (s t : String) : (s ++ t).data = s.data ++ t.data := by
  cases s; cases t; rfl

theorem strLen_eq_zero_iff (s : String) : strLen s = 0 ↔ s = "" := by
  rw [string_eq_iff_data]
  cases s with
  | mk l => cases l <;> simp [strLen]

theorem charOfNat_toNat {n : Nat} (h : n.isValidChar) : (Char.ofNat n).toNat = n := by
  simp [Char.ofNat, h, Char.ofNatAux, Char.toNat, UInt32.toNat, BitVec.toNat_ofNatLt]

theorem dropWhile_head_false {p : Char → Bool} {l : List Char} {c : Char} {rest : List Char}
    (h : l.dropWhile p = c :: rest) : p c = false := by
  induction l with
  | nil => simp [List.dropWhile] at h
  | cons x xs ih =>
    rw [List.dropWhile_cons] at h
    split at h
    · exact ih h
    · cases h; simp_all

theorem headerGet_set_self (h : Header) (k v : String) :
    headerGet? (headerSet h k v) k = some v := by
  induction h with
  | nil => simp [headerSet, assocSet, headerGet?, assocGet?]
  | cons p rest ih =>
    by_cases hk : p.1 = k
    · simp [headerSet, assocSet, hk, headerGet?, assocGet?]
    · simp only [headerSet, assocSet, hk, if_false]
      simpa [headerGet?, assocGet?, hk] using ih

theorem headerGet_set_other (h : Header) (k v k2 : String) (hne : k2 ≠ k) :
    headerGet? (headerSet h k v) k2 = headerGet? h k2 := by
  have hne2 : ¬ k = k2 := fun a => hne a.symm
  induction h with
  | nil => simp [headerSet, assocSet, headerGet?, assocGet?, hne2]
  | cons p rest ih =>
    by_cases hk : p.1 = k
    · subst hk
      have hp : ¬ p.1 = k2 := hne2
      simp [headerSet, assocSet, headerGet?, assocGet?, hp]
    · simp only [headerSet, assocSet, hk, if_false]
      by_cases h2 : p.1 = k2
      · simp [headerGet?, assocGet?, h2]
      · simpa [headerGet?, assocGet?, h2] using ih

theorem mem_assocSet {α : Type} {l : List (String × α)} {k : String} {v : α}
    {kv : String × α} (h : kv ∈ assocSet l k v) : kv.1 = k ∨ kv ∈ l := by
  induction l with
  | nil =>
    simp [assocSet] at h
    subst h; exact Or.inl rfl
  | cons p rest ih =>
    simp only [assocSet] at h
    split at h
    · rcases List.mem_cons.mp h with h1 | h1
      · subst h1; exact Or.inl rfl
      · exact Or.inr (List.mem_cons_of_mem _ h1)
    · rcases List.mem_cons.mp h with h1 | h1
      · subst h1; exact Or.inr (List.mem_cons_self _ _)
      · rcases ih h1 with h2 | h2
        · exact Or.inl h2
        · exact Or.inr (List.mem_cons_of_mem _ h2)

/-!
Lemmas about single machine steps.
-/

theorem isFlagToken_false_cases {t : String} (h : isFlagToken t = false) :
    t ≠ "-A" ∧ t ≠ "--user-agent" ∧ t ≠ "-H" ∧ t ≠ "--header" ∧
    t ≠ "-d" ∧ t ≠ "--data" ∧ t ≠ "--data-ascii" ∧ t ≠ "--data-raw" ∧
    t ≠ "-u" ∧ t ≠ "--user" ∧ t ≠ "-I" ∧ t ≠ "--head" ∧
    t ≠ "-X" ∧ t ≠ "--request" ∧ t ≠ "-b" ∧ t ≠ "--cookie" ∧
    t ≠ "-k" ∧ t ≠ "--insecure" ∧ t ≠ "-m" ∧ t ≠ "--max-time" := by
  simp [isFlagToken] at h
  tauto

theorem step_nonflag {s : String} {r : Request} {t : String}
    (hurl : isURL t = false) (hflag : isFlagToken t = false) :
    step (s, r) t = consume s r t := by
  obtain ⟨h1, h2, h3, h4, h5, h6, h7, h8, h9, h10, h11, h12, h13, h14, h15, h16, h17, h18, h19, h20⟩ :=
    isFlagToken_false_cases hflag
  simp [step, hurl, h1, h2, h3, h4, h5, h6, h7, h8, h9, h10, h11, h12, h13, h14, h15, h16, h17, h18, h19, h20]

/-- C1: a token consumed as a data-flag payload is appended to the body
(joined with `&` when the body is non-empty, so repeated data flags
accumulate); at the moment of consumption a GET or HEAD method becomes POST,
and an absent content-type header entry is defaulted to
`application/x-www-form-urlencoded`. -/
theorem data_flag_accumulates (s : String) (r : Request) (t : String)
    (hs : s = "data") (hurl : isURL t = false) (hflag : isFlagToken t = false) :
    step (s, r) t =
      ("", { r with
        method := if r.method = "GET" || r.method = "HEAD" then "POST" else r.method,
        header := if headerMem r.header KeyContentType then r.header
                  else headerSet r.header KeyContentType "application/x-www-form-urlencoded",
        body := if r.body = "" then t else r.body ++ "&" ++ t }) := by
  subst hs
  rw [step_nonflag hurl hflag]
  show consume "data" r t = _
  simp only [consume]
  by_cases hm : r.method = "GET" || r.method = "HEAD" <;>
    by_cases hct : headerMem r.header KeyContentType <;>
      by_cases hb : r.body = "" <;>
        simp_all [strLen_eq_zero_iff]

theorem data_flag_accumulates_witness :
    step ("data", { method := "POST", url := "", header := [(KeyContentType, "application/json")],
                    body := "a=1", skipTLS := false, timeout := "" }) "b=2" =
      ("", { method := "POST", url := "", header := [(KeyContentType, "application/json")],
             body := "a=1&b=2", skipTLS := false, timeout := "" }) := by
  have h := data_flag_accumulates "data"
    { method := "POST", url := "", header := [(KeyContentType, "application/json")],
      body := "a=1", skipTLS := false, timeout := "" } "b=2" rfl (by decide) (by decide)
  rw [h]
  decide

/-- C9: assigning a URL-shaped token to `url` never changes the pending
state: running the machine on a URL-shaped token followed by more tokens is
the same as storing the URL and continuing with the same pending flag, so a
payload token after the URL is still consumed by the pending flag. -/
theorem url_preserves_pending (s : String) (r : Request) (u : String) (rest : List String)
    (h : isURL u = true) :
    runFrom s r (u :: rest) = runFrom s { r with url := u } rest := by
  simp [runFrom, step, h]

theorem url_preserves_pending_witness :
    runFrom "data" initReq ("https://x" :: ["a=1"]) =
      runFrom "data" { initReq with url := "https://x" } ["a=1"] :=
  url_preserves_pending "data" initReq "https://x" ["a=1"] (by decide)

/-- C7 counterexample: in the current code the `default:` branch of the
token switch has no non-emptiness guard, so an empty token after a data flag
is consumed as the payload: the method changes from GET to POST and a
content-type header appears. -/
theorem empty_payload_counterexample :
    initReq.method = "GET" ∧ initReq.header = [] ∧
    (runMachine ["-d", ""]).method = "POST" ∧
    (runMachine ["-d", ""]).header = [(KeyContentType, "application/x-www-form-urlencoded")] := by
  decide

/-- C7 amended: while an `Expect` state is pending, an empty token IS
consumed as that kind's payload exactly like a non-empty one; after a data
flag it promotes a GET or HEAD method to POST, defaults the content-type
header, appends the empty payload (leaving the body unchanged when it was
empty and appending a trailing `&` otherwise) and clears the pending
state. -/
theorem empty_payload_amended (r : Request) :
    step ("data", r) "" =
      ("", { r with
        method := if r.method = "GET" || r.method = "HEAD" then "POST" else r.method,
        header := if headerMem r.header KeyContentType then r.header
                  else headerSet r.header KeyContentType "application/x-www-form-urlencoded",
        body := if r.body = "" then "" else r.body ++ "&" }) := by
  show consume "data" r "" = _
  simp only [consume]
  by_cases hm : r.method = "GET" || r.method = "HEAD" <;>
    by_cases hct : headerMem r.header KeyContentType <;>
      by_cases hb : r.body = "" <;>
        simp_all [strLen_eq_zero_iff, string_eq_iff_data, strData_append]

/-!
Claim C3: the invalid-command rejection.
-/

theorem goIndexAux_le {sub l : List Char} {i j : Nat}
    (h : goIndexAux sub l i = some j) : i ≤ j := by
  induction l generalizing i with
  | nil =>
    simp only [goIndexAux] at h
    split at h
    · cases h; exact Nat.le_refl _
    · cases h
  | cons c rest ih =>
    simp only [goIndexAux] at h
    split at h
    · cases h; exact Nat.le_refl _
    · exact Nat.le_of_succ_le (ih h)

theorem goIndex_zero_iff (s sub : String) :
    goIndex s sub = 0 ↔ strStartsWith s sub = true := by
  unfold goIndex strStartsWith
  cases hl : s.data with
  | nil =>
    simp only [goIndexAux]
    split
    · simp_all
    · simp_all
  | cons c rest =>
    by_cases hp : sub.data.isPrefixOf (c :: rest)
    · simp [goIndexAux, hp]
    · rw [show goIndexAux sub.data (c :: rest) 0 = goIndexAux sub.data rest 1 by
        simp [goIndexAux, hp]]
      cases hx : goIndexAux sub.data rest 1 with
      | none => simp [hp]
      | some j =>
        have hj := goIndexAux_le hx
        simp only [hp, iff_false]
        simp only [Bool.not_eq_true] at hp ⊢
        simp [hp]
        omega

theorem finish_ne_invalid (r : Request) : finish r ≠ .error .invalidCommand := by
  unfold finish
  split
  · cases goUnmarshalMap r.body <;> simp
  · simp

/-- C3: `Parse` returns the invalid-command error exactly when the input
does not begin with `"curl "` (the command name and one space); the check
happens before the word splitter runs, so for any splitter behavior an input
with the prefix never produces that error. -/
theorem invalid_command_iff (split : String → Except Unit (List String)) (curl : String) :
    ParseWith split curl = .error .invalidCommand ↔ strStartsWith curl "curl " = false := by
  unfold ParseWith
  by_cases h : goIndex curl "curl " = 0
  · have hpre : strStartsWith curl "curl " = true := (goIndex_zero_iff _ _).mp h
    simp only [h, ne_eq, not_true_eq_false, if_false, hpre]
    constructor
    · intro hc
      cases hs : split curl with
      | error e => rw [hs] at hc; simp at hc
      | ok args =>
        rw [hs] at hc
        exact absurd hc (finish_ne_invalid _)
    · intro hc; cases hc
  · have hpre : ¬ strStartsWith curl "curl " = true := fun hp => h ((goIndex_zero_iff _ _).mpr hp)
    simp only [h, ne_eq, not_false_eq_true, if_true]
    simp [Bool.not_eq_true] at hpre
    simp [hpre]

/-!
Claim C6: header-flag payload handling.
-/

/-- C6 counterexample: for the pending header flag and payload `" A: b "`,
the code stores the name `" a"` — lowercased but not trimmed — with the
value `"b"` trimmed on both sides, while the claim predicts the name `"a"`
(trimmed) and the value `"b "` (left-trimmed only). -/
theorem header_split_counterexample :
    (step ("header", initReq) " A: b ").2.header = [(" a", "b")] ∧
    headerGet? (step ("header", initReq) " A: b ").2.header "a" = none ∧
    (" a" : String) ≠ "a" ∧ ("b" : String) ≠ "b " := by
  decide

/-- C6 amended: a header-flag payload is split on its first colon; the
stored header name is the key lowercased (with no whitespace trimming), the
stored value is the value trimmed of surrounding whitespace on both sides,
and the assignment overwrites any existing entry for that name while leaving
other entries readable as before. -/
theorem header_split_amended (s : String) (r : Request) (t : String)
    (hs : s = "header") (hurl : isURL t = false) (hflag : isFlagToken t = false) :
    step (s, r) t = ("", { r with header := headerSet r.header (goToLower (cutColon t).1) (goTrimSpace (cutColon t).2.1) }) ∧
    (∀ h k v, headerGet? (headerSet h k v) k = some v) ∧
    (∀ h k v k2, k2 ≠ k → headerGet? (headerSet h k v) k2 = headerGet? h k2) := by
  subst hs
  refine ⟨?_, headerGet_set_self, headerGet_set_other⟩
  rw [step_nonflag hurl hflag]
  rfl

theorem header_split_amended_witness :
    step ("header", initReq) "X-Token: abc " =
      ("", { initReq with header := [("x-token", "abc")] }) := by
  have h := (header_split_amended "header" initReq "X-Token: abc " rfl (by decide) (by decide)).1
  rw [h]
  decide

/-!
Claim C8: the token normalizer.
-/

theorem strContains_eq_mem (s : String) (c : Char) :
    strContains s c = decide (c ∈ s.data) := by
  show s.data.elem c = _
  exact List.elem_eq_mem c s.data

theorem stripNL_id_of_no_newline {s : String} (h : strContains s '\n' = false) :
    stripNL s = s := by
  rw [string_eq_iff_data]
  simp only [stripNL]
  rw [List.filter_eq_self]
  intro a ha
  simp only [strContains_eq_mem, decide_eq_false_iff_not] at h
  simp only [ne_eq, decide_eq_true_eq]
  intro hx
  exact h (hx ▸ ha)

theorem strContains_stripNL (s : String) : strContains (stripNL s) '\n' = false := by
  simp only [strContains_eq_mem, stripNL, decide_eq_false_iff_not]
  intro hmem
  have := List.of_mem_filter hmem
  simp at this

theorem strContains_sub {s : String} {l : List Char}
    (hsub : l ⊆ s.data) (h : strContains s '\n' = false) :
    strContains (String.mk l) '\n' = false := by
  simp only [strContains_eq_mem, decide_eq_false_iff_not] at h ⊢
  intro hmem
  exact h (hsub hmem)

theorem trim_ne_newline (w : String) : goTrimSpace w ≠ "\n" := by
  intro h
  rw [string_eq_iff_data] at h
  simp only [goTrimSpace] at h
  have hrev : ((w.data.dropWhile isSpaceChar).reverse.dropWhile isSpaceChar) = ['\n'] := by
    have := congrArg List.reverse h
    simpa using this
  have := dropWhile_head_false hrev
  simp [isSpaceChar] at this

theorem trimStrip_cond_eq (w : String) :
    (if strContains (goTrimSpace w) '\n' then stripNL (goTrimSpace w)
     else goTrimSpace w) = stripNL (goTrimSpace w) := by
  by_cases hc : strContains (goTrimSpace w) '\n' = true
  · simp [hc]
  · simp only [Bool.not_eq_true] at hc
    simp [hc, stripNL_id_of_no_newline hc]

theorem mem_sanitizeWord_no_newline {w t : String} (h : t ∈ sanitizeWord w) :
    strContains t '\n' = false := by
  have h1 : goTrimSpace w ≠ "\n" := trim_ne_newline w
  have hnl : strContains (stripNL (goTrimSpace w)) '\n' = false := strContains_stripNL _
  simp only [sanitizeWord, h1, if_false, trimStrip_cond_eq] at h
  by_cases hx : (strStartsWith (stripNL (goTrimSpace w)) "-X" &&
      decide (strLen (stripNL (goTrimSpace w)) > 2)) = true
  · simp only [hx, if_true, List.mem_cons, List.not_mem_nil, or_false] at h
    rcases h with h | h
    · subst h
      exact strContains_sub (List.take_subset 2 _) hnl
    · subst h
      exact strContains_sub (List.drop_subset 2 _) hnl
  · rw [Bool.not_eq_true] at hx
    simp only [hx, Bool.false_eq_true, if_false, List.mem_singleton] at h
    subst h
    exact hnl

/-- C8 counterexample: a word that is exactly a single newline is trimmed to
the empty string before the newline comparison, so the normalizer emits an
empty token for it instead of removing it. -/
theorem sanitize_newline_counterexample :
    sanitize ["\n"] = [""] ∧ ([""] : List String) ≠ [] := by
  decide

/-- C8 amended: the normalizer handles each word independently and in order;
a word whose trimmed, newline-stripped form does not glue `-X` to a value
yields exactly that trimmed and stripped form — so a word that is exactly a
newline yields the empty token rather than nothing — and no emitted token
contains a newline character. -/
theorem sanitize_amended :
    (∀ xs ys : List String, sanitize (xs ++ ys) = sanitize xs ++ sanitize ys) ∧
    (∀ w, strStartsWith (stripNL (goTrimSpace w)) "-X" = false →
      sanitize [w] = [stripNL (goTrimSpace w)]) ∧
    (∀ args t, t ∈ sanitize args → strContains t '\n' = false) := by
  refine ⟨?_, ?_, ?_⟩
  · intro xs ys
    simp [sanitize]
  · intro w hX
    have h1 : goTrimSpace w ≠ "\n" := trim_ne_newline w
    simp [sanitize, sanitizeWord, h1, trimStrip_cond_eq, hX]
  · intro args t ht
    simp only [sanitize, List.mem_flatMap] at ht
    obtain ⟨w, _, hw⟩ := ht
    exact mem_sanitizeWord_no_newline hw

theorem sanitize_amended_witness :
    strStartsWith (stripNL (goTrimSpace " a\nb ")) "-X" = false ∧
    sanitize [" a\nb "] = ["ab"] := by
  refine ⟨by decide, ?_⟩
  have h := sanitize_amended.2.1 " a\nb " (by decide)
  rw [h]
  decide

/-!
Claim C4: which URL-shaped token ends up in `url`.
-/

theorem isURL_eq_urlShaped (a : String) :
    isURL a = (urlShaped a && !(strContains a '\n')) := rfl

theorem step_isURL {s : String} {r : Request} {a : String} (h : isURL a = true) :
    step (s, r) a = (s, { r with url := a }) := by
  simp [step, h]

theorem step_url_field (s : String) (r : Request) (a : String) :
    ((step (s, r) a).2).url = if isURL a = true then a else r.url := by
  by_cases h : isURL a = true
  · simp [step, h]
  · simp only [h, if_false]
    simp only [step, h, Bool.false_eq_true, if_false]
    split_ifs <;> try rfl
    unfold consume
    split <;> simp_all <;> split_ifs <;> try rfl

theorem runFrom_cons (s : String) (r : Request) (a : String) (args : List String) :
    runFrom s r (a :: args) = runFrom (step (s, r) a).1 (step (s, r) a).2 args := by
  simp [runFrom]

theorem runFrom_url (args : List String) : ∀ (s : String) (r : Request),
    (∀ t ∈ args, strContains t '\n' = false) →
    ((runFrom s r args).2).url = (args.foldl updUrl (some r.url)).getD "" := by
  induction args with
  | nil => intro s r _; simp [runFrom]
  | cons a rest ih =>
    intro s r h
    have ha : strContains a '\n' = false := h a (List.mem_cons_self _ _)
    have hrest : ∀ t ∈ rest, strContains t '\n' = false :=
      fun t ht => h t (List.mem_cons_of_mem _ ht)
    have hU : isURL a = urlShaped a := by
      rw [isURL_eq_urlShaped, ha]
      simp
    rw [runFrom_cons]
    cases hu : urlShaped a with
    | true =>
      rw [step_isURL (by rw [hU, hu])]
      rw [ih _ _ hrest]
      simp [updUrl, hu]
    | false =>
      rw [ih _ _ hrest]
      have hfield := step_url_field s r a
      rw [hU, hu] at hfield
      simp only [Bool.false_eq_true, if_false] at hfield
      rw [hfield]
      simp [updUrl, hu]

theorem foldl_updUrl_init (args : List String) : ∀ (o : Option String),
    args.foldl updUrl o = (match args.foldl updUrl none with
      | some u => some u
      | none => o) := by
  induction args with
  | nil => intro o; simp
  | cons a rest ih =>
    intro o
    by_cases hu : urlShaped a = true
    · simp only [List.foldl_cons, updUrl, hu, if_true]
      rw [ih (some a)]
      cases hres : rest.foldl updUrl none <;> simp
    · simp only [List.foldl_cons, updUrl, hu, if_false]
      exact ih o

/-- C4 counterexample: with two URL-shaped tokens every one is assigned to
`url` in turn, so the returned descriptor carries the LAST one, not the
first as claimed. -/
theorem url_first_token_counterexample :
    ParseWith (fun _ => .ok ["curl", "http://a", "http://b"]) "curl http://a http://b" =
      .ok { method := "GET", url := "http://b", header := [], body := "",
            skipTLS := false, timeout := "" } ∧
    (sanitize ["curl", "http://a", "http://b"]).find? urlShaped = some "http://a" ∧
    ("http://b" : String) ≠ "http://a" := by
  refine ⟨rfl, by decide, by decide⟩

/-- C4 amended: over any newline-free token sequence (the normalizer output
is always newline-free), the descriptor's `url` equals the LAST URL-shaped
token — each URL-shaped token overwrites the previous assignment — and is
empty when there is none. -/
theorem url_last_token (args : List String) (h : ∀ t ∈ args, strContains t '\n' = false) :
    (runMachine args).url = (lastUrl args).getD "" := by
  unfold runMachine lastUrl
  rw [runFrom_url args "" initReq h]
  rw [foldl_updUrl_init args (some initReq.url)]
  cases hres : args.foldl updUrl none <;> simp [initReq]

theorem url_last_token_witness :
    (runMachine ["https://a", "x", "https://b"]).url = "https://b" := by
  have h := url_last_token ["https://a", "x", "https://b"] (by decide)
  rw [h]
  decide

/-!
Claim C5: header keys are lowercase.
-/

theorem toLowerChar_not_upper (c : Char) :
    (!(65 ≤ (toLowerChar c).toNat && (toLowerChar c).toNat ≤ 90)) = true := by
  unfold toLowerChar
  by_cases h : (65 ≤ c.toNat && c.toNat ≤ 90) = true
  · simp only [h, if_true]
    simp only [Bool.and_eq_true, decide_eq_true_eq] at h
    have hv : (c.toNat + 32).isValidChar := Or.inl (by omega)
    rw [charOfNat_toNat hv]
    have h90 : ¬(c.toNat + 32 ≤ 90) := by omega
    simp [h90]
  · rw [Bool.not_eq_true] at h
    simp [h]

theorem noUpper_goToLower (s : String) : noUpper (goToLower s) = true := by
  simp only [noUpper, goToLower, List.all_map, List.all_eq_true]
  intro c _
  exact toLowerChar_not_upper c

theorem headerLower_set {h : Header} {k v : String}
    (hh : ∀ kv ∈ h, noUpper kv.1 = true) (hk : noUpper k = true) :
    ∀ kv ∈ headerSet h k v, noUpper kv.1 = true := by
  intro kv hm
  rcases mem_assocSet hm with h1 | h1
  · rw [h1]; exact hk
  · exact hh kv h1

theorem consume_data_header (r : Request) (a : String) :
    ((consume "data" r a).2).header =
      if headerMem r.header KeyContentType = true then r.header
      else headerSet r.header KeyContentType "application/x-www-form-urlencoded" := by
  unfold consume
  by_cases hm : (r.method = "GET" || r.method = "HEAD") = true <;>
    by_cases hct : headerMem r.header KeyContentType = true <;>
      by_cases hb : strLen r.body = 0 <;>
        simp [hm, hct, hb]

theorem consume_header_lower (s : String) (r : Request) (a : String)
    (hh : ∀ kv ∈ r.header, noUpper kv.1 = true) :
    ∀ kv ∈ ((consume s r a).2).header, noUpper kv.1 = true := by
  unfold consume
  split
  · exact headerLower_set hh (noUpper_goToLower _)
  · exact headerLower_set hh (by decide)
  · show ∀ kv ∈ ((consume "data" r a).2).header, noUpper kv.1 = true
    rw [consume_data_header]
    by_cases hct : headerMem r.header KeyContentType = true
    · simp only [hct, if_true]
      exact hh
    · simp only [hct, if_false]
      exact headerLower_set hh (by decide)
  · exact headerLower_set hh (by decide)
  · exact hh
  · exact headerLower_set hh (by decide)
  · exact hh
  · exact hh

set_option maxHeartbeats 1000000 in
theorem step_header_eq (s : String) (r : Request) (a : String) :
    ((step (s, r) a).2).header = ((consume s r a).2).header ∨
    ((step (s, r) a).2).header = r.header := by
  simp only [step]
  split_ifs <;> first
    | exact Or.inr rfl
    | exact Or.inl rfl

theorem step_header_lower (s : String) (r : Request) (a : String)
    (hh : ∀ kv ∈ r.header, noUpper kv.1 = true) :
    ∀ kv ∈ ((step (s, r) a).2).header, noUpper kv.1 = true := by
  rcases step_header_eq s r a with he | he <;> rw [he]
  · exact consume_header_lower s r a hh
  · exact hh

theorem runFrom_header_lower (args : List String) : ∀ (s : String) (r : Request),
    (∀ kv ∈ r.header, noUpper kv.1 = true) →
    ∀ kv ∈ ((runFrom s r args).2).header, noUpper kv.1 = true := by
  induction args with
  | nil => intro s r hh; simpa [runFrom] using hh
  | cons a rest ih =>
    intro s r hh
    rw [runFrom_cons]
    exact ih _ _ (step_header_lower s r a hh)

theorem finish_header_eq {r r2 : Request} (h : finish r = .ok r2) :
    r2.header = r.header := by
  unfold finish at h
  split at h
  · cases hm : goUnmarshalMap r.body with
    | error e => rw [hm] at h; cases h
    | ok m =>
      rw [hm] at h
      cases h
      rfl
  · cases h
    rfl

/-- C5: on every successful parse, every key of the returned header map
contains no uppercase ASCII letter — entries from the header flag are
lowercased on storage, and the user-agent, basic-auth, cookie and defaulted
content-type entries use lowercase constant names. -/
theorem header_keys_lowercase (split : String → Except Unit (List String)) (curl : String)
    (r : Request) (h : ParseWith split curl = .ok r) :
    ∀ kv ∈ r.header, noUpper kv.1 = true := by
  unfold ParseWith at h
  split at h
  · cases h
  · cases hs : split curl with
    | error e => rw [hs] at h; cases h
    | ok args =>
      rw [hs] at h
      have hm := runFrom_header_lower (sanitize args) "" initReq
        (by intro kv hkv; simp [initReq] at hkv)
      have hh := finish_header_eq h
      intro kv hkv
      exact hm kv (hh ▸ hkv)

theorem header_keys_lowercase_witness :
    noUpper ("content-type" : String) = true :=
  header_keys_lowercase (fun _ => .ok ["curl", "-H", "Content-TYPE:text/html", "https://x"])
    "curl -H Content-TYPE:text/html https://x"
    { method := "GET", url := "https://x", header := [("content-type", "text/html")],
      body := "", skipTLS := false, timeout := "" }
    (by rfl) ("content-type", "text/html") (by decide)

/-!
Claim C2: properties of the JSON body canonicalization.
-/

theorem charNe_of_toNat_ne {c d : Char} (h : c.toNat ≠ d.toNat) : ¬ c = d :=
  fun e => h (congrArg Char.toNat e)

theorem jsonWS_eq_false_of_toNat {c : Char} (h1 : c.toNat ≠ 32) (h2 : c.toNat ≠ 9)
    (h3 : c.toNat ≠ 13) (h4 : c.toNat ≠ 10) : jsonWS c = false := by
  unfold jsonWS
  have e1 : ¬ c = ' ' := charNe_of_toNat_ne h1
  have e2 : ¬ c = '\t' := charNe_of_toNat_ne h2
  have e3 : ¬ c = '\r' := charNe_of_toNat_ne h3
  have e4 : ¬ c = '\n' := charNe_of_toNat_ne h4
  simp [e1, e2, e3, e4]

theorem hexLower_not_ws (k : Nat) (hk : k < 16) : jsonWS (hexLower k) = false := by
  unfold hexLower
  by_cases h : k < 10
  · rw [if_pos h]
    have hv : (48 + k).isValidChar := Or.inl (by omega)
    apply jsonWS_eq_false_of_toNat <;> rw [charOfNat_toNat hv] <;> omega
  · rw [if_neg h]
    have hv : (87 + k).isValidChar := Or.inl (by omega)
    apply jsonWS_eq_false_of_toNat <;> rw [charOfNat_toNat hv] <;> omega

theorem encChar_noWS {c : Char} (h : jsonWS c = false) :
    ∀ d ∈ encChar c, jsonWS d = false := by
  unfold encChar
  split_ifs with h1 h2 h3 h4 h5 h6 h7 h8 <;> intro d hd
  · rcases List.mem_cons.mp hd with rfl | hd
    · decide
    · simp at hd; subst hd; decide
  · rcases List.mem_cons.mp hd with rfl | hd
    · decide
    · simp at hd; subst hd; decide
  · rw [h3] at h; exact absurd h (by decide)
  · rw [h4] at h; exact absurd h (by decide)
  · rw [h5] at h; exact absurd h (by decide)
  · simp only [List.mem_cons, List.not_mem_nil, or_false] at hd
    rcases hd with rfl | rfl | rfl | rfl | rfl | rfl
    · decide
    · decide
    · decide
    · decide
    · exact hexLower_not_ws _ (by omega)
    · exact hexLower_not_ws _ (Nat.mod_lt _ (by omega))
  · simp only [List.mem_cons, List.not_mem_nil, or_false] at hd
    rcases hd with rfl | rfl | rfl | rfl | rfl | rfl <;> decide
  · simp only [List.mem_cons, List.not_mem_nil, or_false] at hd
    rcases hd with rfl | rfl | rfl | rfl | rfl | rfl <;> decide
  · simp only [List.mem_cons, List.not_mem_nil, or_false] at hd
    rcases hd with rfl
    exact h

theorem hasWSStr_append (a b : String) :
    hasWSStr (a ++ b) = (hasWSStr a || hasWSStr b) := by
  simp [hasWSStr, strData_append, List.any_append]

theorem hasWSStr_iff_mem (s : String) :
    hasWSStr s = false ↔ ∀ c ∈ s.data, jsonWS c = false := by
  simp [hasWSStr, List.any_eq_false, Bool.not_eq_true]

theorem encString_noWS {s : String} (h : hasWSStr s = false) :
    hasWSStr (encString s) = false := by
  rw [hasWSStr_iff_mem] at h ⊢
  intro d hd
  simp only [encString] at hd
  rcases List.mem_cons.mp hd with rfl | hd
  · decide
  · rcases List.mem_append.mp hd with hd | hd
    · obtain ⟨c, hc, hdc⟩ := List.mem_flatMap.mp hd
      exact encChar_noWS (h c hc) d hdc
    · simp at hd; subst hd; decide

theorem joinComma_noWS {l : List String} (h : ∀ x ∈ l, hasWSStr x = false) :
    hasWSStr (joinComma l) = false := by
  induction l with
  | nil => decide
  | cons x xs ih =>
    cases xs with
    | nil => simpa [joinComma] using h x (by simp)
    | cons y ys =>
      show hasWSStr (x ++ "," ++ joinComma (y :: ys)) = false
      rw [hasWSStr_append, hasWSStr_append]
      have hx := h x (by simp)
      have hrest : ∀ z ∈ y :: ys, hasWSStr z = false := fun z hz => h z (by simp [hz])
      simp [hx, ih hrest, show hasWSStr "," = false by decide]

theorem mem_insertSorted {α : Type} {p x : String × α} {l : List (String × α)}
    (h : x ∈ insertSorted p l) : x = p ∨ x ∈ l := by
  induction l with
  | nil => simp [insertSorted] at h; exact Or.inl h
  | cons q rest ih =>
    simp only [insertSorted] at h
    split at h
    · rcases List.mem_cons.mp h with rfl | h1
      · exact Or.inl rfl
      · exact Or.inr h1
    · rcases List.mem_cons.mp h with rfl | h1
      · exact Or.inr (List.mem_cons_self _ _)
      · rcases ih h1 with h2 | h2
        · exact Or.inl h2
        · exact Or.inr (List.mem_cons_of_mem _ h2)

theorem mem_sortPairs {α : Type} {x : String × α} {l : List (String × α)}
    (h : x ∈ sortPairs l) : x ∈ l := by
  induction l with
  | nil => simp [sortPairs] at h
  | cons q rest ih =>
    have h2 : x ∈ insertSorted q (sortPairs rest) := h
    rcases mem_insertSorted h2 with h3 | h3
    · rw [h3]; exact List.mem_cons_self _ _
    · exact List.mem_cons_of_mem _ (ih h3)

theorem renderField_noWS {p : String × String}
    (hk : hasWSStr p.1 = false) (hv : hasWSStr p.2 = false) :
    hasWSStr (renderField p) = false := by
  unfold renderField
  rw [hasWSStr_append, hasWSStr_append]
  simp [encString_noWS hk, hv, show hasWSStr ":" = false by decide]

mutual

theorem encodeVal_noWS (v : JVal) (h : jvalHasWS v = false) :
    hasWSStr (encodeVal v) = false := by
  cases v with
  | null => decide
  | bool b => cases b <;> decide
  | num raw => exact h
  | str s => exact encString_noWS h
  | arr es =>
    show hasWSStr ("[" ++ joinComma (encodeElems es) ++ "]") = false
    rw [hasWSStr_append, hasWSStr_append]
    have he := encodeElems_noWS es h
    simp [joinComma_noWS he, show hasWSStr "[" = false by decide,
      show hasWSStr "]" = false by decide]
  | obj fs =>
    show hasWSStr ("\x7b" ++ joinComma ((sortPairs (encodeFields fs)).map renderField) ++ "\x7d") = false
    rw [hasWSStr_append, hasWSStr_append]
    have hf := encodeFields_noWS fs h
    have hall : ∀ x ∈ (sortPairs (encodeFields fs)).map renderField, hasWSStr x = false := by
      intro x hx
      obtain ⟨p, hp, hxp⟩ := List.mem_map.mp hx
      have hpf := hf p (mem_sortPairs hp)
      rw [← hxp]
      exact renderField_noWS hpf.1 hpf.2
    simp [joinComma_noWS hall, show hasWSStr "\x7b" = false by decide,
      show hasWSStr "\x7d" = false by decide]

theorem encodeElems_noWS (es : List JVal) (h : jlistHasWS es = false) :
    ∀ x ∈ encodeElems es, hasWSStr x = false := by
  cases es with
  | nil => intro x hx; simp [encodeElems] at hx
  | cons v rest =>
    intro x hx
    simp only [jlistHasWS, Bool.or_eq_false_iff] at h
    rcases List.mem_cons.mp hx with rfl | hx2
    · exact encodeVal_noWS v h.1
    · exact encodeElems_noWS rest h.2 x hx2

theorem encodeFields_noWS (fs : List (String × JVal)) (h : jfieldsHasWS fs = false) :
    ∀ p ∈ encodeFields fs, hasWSStr p.1 = false ∧ hasWSStr p.2 = false := by
  cases fs with
  | nil => intro p hp; simp [encodeFields] at hp
  | cons kv rest =>
    intro p hp
    simp only [jfieldsHasWS, Bool.or_eq_false_iff] at h
    rcases List.mem_cons.mp hp with rfl | hp2
    · exact ⟨h.1.1, encodeVal_noWS kv.2 h.1.2⟩
    · exact encodeFields_noWS rest h.2 p hp2

end

theorem encChar_plain {c : Char} (h : plainChar c = true) : encChar c = [c] := by
  simp only [plainChar, Bool.and_eq_true, decide_eq_true_eq, ne_eq] at h
  obtain ⟨⟨⟨⟨hq, hb⟩, hge⟩, h28⟩, h29⟩ := h
  have hn : ¬ c = '\n' := by intro e; rw [e] at hge; exact absurd hge (by decide)
  have hr : ¬ c = '\r' := by intro e; rw [e] at hge; exact absurd hge (by decide)
  have ht : ¬ c = '\t' := by intro e; rw [e] at hge; exact absurd hge (by decide)
  have hc : ¬ c.toNat < 0x20 := by omega
  simp [encChar, hq, hb, hn, hr, ht, hc, h28, h29]

theorem flatMap_encChar_plain (l : List Char) :
    (∀ c ∈ l, plainChar c = true) → l.flatMap encChar = l := by
  induction l with
  | nil => intro _; rfl
  | cons c cs ih =>
    intro h
    simp only [List.flatMap_cons]
    rw [encChar_plain (h c (List.mem_cons_self _ _)),
      ih (fun x hx => h x (List.mem_cons_of_mem _ hx))]
    rfl

theorem encString_plain {s : String} (h : s.data.all plainChar = true) :
    encString s = "\"" ++ s ++ "\"" := by
  rw [string_eq_iff_data]
  simp only [encString, strData_append]
  rw [List.all_eq_true] at h
  rw [flatMap_encChar_plain s.data h]
  rfl

theorem finish_not_json {r : Request}
    (h : headerGetD r.header KeyContentType ≠ ContentTypeJSON) : finish r = .ok r := by
  unfold finish
  rw [if_neg h]

theorem finish_json_error {r : Request}
    (hct : headerGetD r.header KeyContentType = ContentTypeJSON)
    (hdec : goUnmarshalMap r.body = .error ()) : finish r = .error .json := by
  unfold finish
  rw [if_pos hct, hdec]

theorem finish_json_ok {r : Request} {m : Option (List (String × JVal))}
    (hct : headerGetD r.header KeyContentType = ContentTypeJSON)
    (hdec : goUnmarshalMap r.body = .ok m) :
    finish r = .ok { r with body := stripNL (topEncodeMap m ++ "\n") } := by
  unfold finish
  rw [if_pos hct, hdec]

/-- C2: the body is re-encoded if and only if the content-type header value
is exactly `application/json`; a body that does not decode makes `Parse`
fail with an error and no descriptor; the re-encoded body has no newline
(hence no trailing newline), inserts no whitespace of its own, and emits
`&`, `<` and `>` unescaped. -/
theorem json_body_canonicalization :
    (∀ r : Request, headerGetD r.header KeyContentType ≠ ContentTypeJSON →
      finish r = .ok r) ∧
    (∀ r : Request, headerGetD r.header KeyContentType = ContentTypeJSON →
      goUnmarshalMap r.body = .error () → finish r = .error .json) ∧
    (∀ (r : Request) (m : Option (List (String × JVal))),
      headerGetD r.header KeyContentType = ContentTypeJSON →
      goUnmarshalMap r.body = .ok m →
      finish r = .ok { r with body := stripNL (topEncodeMap m ++ "\n") } ∧
      strContains (stripNL (topEncodeMap m ++ "\n")) '\n' = false) ∧
    (∀ v : JVal, jvalHasWS v = false → hasWSStr (encodeVal v) = false) ∧
    (∀ s : String, s.data.all plainChar = true → encString s = "\"" ++ s ++ "\"") ∧
    (plainChar '&' && plainChar '<' && plainChar '>') = true := by
  refine ⟨fun r h => finish_not_json h,
    fun r hct hdec => finish_json_error hct hdec,
    fun r m hct hdec => ⟨finish_json_ok hct hdec, strContains_stripNL _⟩,
    encodeVal_noWS,
    fun s h => encString_plain h,
    by decide⟩

theorem json_body_canonicalization_witness :
    finish { method := "POST", url := "https://x",
             header := [("content-type", "application/json")],
             body := "\x7b\"hello\": \"world\"\x7d", skipTLS := false, timeout := "" } =
      .ok { method := "POST", url := "https://x",
            header := [("content-type", "application/json")],
            body := "\x7b\"hello\":\"world\"\x7d", skipTLS := false, timeout := "" } ∧
    encString "&<>" = "\"&<>\"" := by
  constructor
  · have h := (json_body_canonicalization.2.2.1
      { method := "POST", url := "https://x",
        header := [("content-type", "application/json")],
        body := "\x7b\"hello\": \"world\"\x7d", skipTLS := false, timeout := "" }
      (some [("hello", JVal.str "world")]) rfl rfl).1
    rw [h]
    rfl
  · exact json_body_canonicalization.2.2.2.2.1 "&<>" (by decide)

/-!
Claim C10: non-object JSON bodies.
-/

/-- C10 counterexample: the body `null` is a valid JSON value that is not an
object, yet `Parse` succeeds — Go's `Unmarshal` accepts the literal `null`
for a map (setting it to `nil`), so decoding does not fail and the body is
re-encoded as `null`. -/
theorem json_null_body_counterexample :
    parseTop "null" = some JVal.null ∧
    isObjJ JVal.null = false ∧
    ParseWith
      (fun _ => .ok ["curl", "-d", "null", "-H", "content-type: application/json", "https://x"])
      "curl -d null -H content-type:application/json https://x" =
      .ok { method := "POST", url := "https://x",
            header := [("content-type", "application/json")], body := "null",
            skipTLS := false, timeout := "" } :=
  ⟨rfl, rfl, rfl⟩

/-- C10 amended: if the content-type header equals `application/json` and
the body is a valid JSON value that is neither an object nor the literal
`null`, `Parse` returns an error and no descriptor, because decoding targets
a string-keyed mapping (`null` is the one non-object value the map decode
accepts). -/
theorem json_nonobject_error (r : Request) (v : JVal)
    (hct : headerGetD r.header KeyContentType = ContentTypeJSON)
    (hp : parseTop r.body = some v) (hobj : isObjJ v = false) (hnull : isNullJ v = false) :
    finish r = .error .json := by
  have hdec : goUnmarshalMap r.body = .error () := by
    unfold goUnmarshalMap
    rw [hp]
    cases v <;> simp_all [isObjJ, isNullJ]
  exact finish_json_error hct hdec

theorem json_nonobject_error_witness :
    parseTop "[1,2]" = some (JVal.arr [JVal.num "1", JVal.num "2"]) ∧
    finish { method := "POST", url := "", header := [("content-type", "application/json")],
             body := "[1,2]", skipTLS := false, timeout := "" } = .error .json :=
  ⟨rfl, json_nonobject_error _ (JVal.arr [JVal.num "1", JVal.num "2"]) rfl rfl rfl rfl⟩

end GCurl
